import Mathlib

/-!
Shallow embedding of the luminari backend (src/index.js, src/lib/prisma.js)
and proofs about its retry wrapper, connection-string builder, confidence
extraction, login handler, markdown post-processing, section parser and
document filtering.
-/

namespace Luminari

/-! ## Retry wrapper (src/index.js, `withRetry`)

`withRetry(operation, maxRetries = 3)` runs a `for (let i = 0; i < maxRetries; i++)`
loop: each iteration awaits `operation()`; on success it returns the result.
On failure it logs the error message; if the message contains both
"prepared statement" and "already exists" it runs `DEALLOCATE ALL`
(its own failure only logged); if the attempt was the last it rethrows,
otherwise it sleeps `1000 * 2 ** i` milliseconds and retries.
If the loop body never runs (`maxRetries <= 0`) the function returns
`undefined`.

The embedding makes the effects explicit: `op n` is the outcome of the
n-th invocation of the operation, `cl n` the outcome of the n-th cleanup
command, and the trace records the returned/раised value (`none` models a
plain `undefined` return), the number of operation invocations, the list
of sleeps in milliseconds, the number of cleanup invocations and the list
of logged error messages.
-/

/-- Trace of one `withRetry` call. `result = none` models the JS function
returning `undefined` without throwing; `some (.ok v)` a normal return;
`some (.error e)` a throw. -/
structure RetryTrace (α : Type) where
  result : Option (Except String α)
  calls : Nat
  delays : List Nat
  cleanups : Nat
  log : List String

/-- Substring test on char lists (models JS `String.prototype.includes`). -/
def infixCheck (pat : List Char) : List Char → Bool
  | [] => pat.isEmpty
  | c :: t => List.isPrefixOf pat (c :: t) || infixCheck pat t

/-- `msg.includes('prepared statement') && msg.includes('already exists')`
from src/index.js line 97. -/
def isPrepErr (msg : String) : Bool :=
  infixCheck "prepared statement".toList msg.toList &&
    infixCheck "already exists".toList msg.toList

/-- Whether an attempt outcome is a prepared-statement failure. -/
def errPrep {α : Type} : Except String α → Bool
  | .error e => isPrepErr e
  | .ok _ => false

/-- Log lines produced by the prepared-statement cleanup `try/catch`
(src/index.js lines 98-103): run only when the message matches, and a
failing `DEALLOCATE ALL` contributes its message to the log. -/
def cleanupLogOf (cl : Nat → Except String Unit) (j : Nat) (e : String) :
    List String :=
  if isPrepErr e then
    match cl j with
    | .ok _ => []
    | .error ce => [ce]
  else []

/-- The retry loop: `i` is the attempt index, `j` the index of the next
cleanup invocation, `r` the number of iterations left. -/
def withRetryGo {α : Type} (op : Nat → Except String α)
    (cl : Nat → Except String Unit) : Nat → Nat → Nat → RetryTrace α
  | _, _, 0 => ⟨none, 0, [], 0, []⟩
  | i, j, r + 1 =>
    match op i with
    | .ok v => ⟨some (.ok v), 1, [], 0, []⟩
    | .error e =>
      let cleanupCount := if isPrepErr e then 1 else 0
      if r = 0 then
        ⟨some (.error e), 1, [], cleanupCount, e :: cleanupLogOf cl j e⟩
      else
        let rest := withRetryGo op cl (i + 1) (j + cleanupCount) r
        ⟨rest.result, rest.calls + 1, 1000 * 2 ^ i :: rest.delays,
          cleanupCount + rest.cleanups, e :: (cleanupLogOf cl j e ++ rest.log)⟩

/-- `withRetry(operation, maxRetries)`; a non-positive `maxRetries` runs the
loop zero times. -/
def withRetry {α : Type} (op : Nat → Except String α)
    (cl : Nat → Except String Unit) (maxRetries : Int) : RetryTrace α :=
  withRetryGo op cl 0 0 maxRetries.toNat

/-- Number of prepared-statement failures among invocations `i, …, i+k-1`. -/
def prepFailCount {α : Type} (op : Nat → Except String α) : Nat → Nat → Nat
  | _, 0 => 0
  | i, k + 1 => (if errPrep (op i) then 1 else 0) + prepFailCount op (i + 1) k

theorem withRetryGo_success {α : Type} (op : Nat → Except String α)
    (cl : Nat → Except String Unit) (v : α) :
    ∀ (t r i j : Nat), t < r → (∀ s, s < t → ∃ e, op (i + s) = .error e) →
      op (i + t) = .ok v →
      (withRetryGo op cl i j r).result = some (.ok v) ∧
      (withRetryGo op cl i j r).calls = t + 1 ∧
      (withRetryGo op cl i j r).delays =
        (List.range t).map (fun s => 1000 * 2 ^ (i + s)) := by
  intro t
  induction t with
  | zero =>
    intro r i j hr _ hsucc
    obtain ⟨r, rfl⟩ : ∃ r1, r = r1 + 1 := ⟨r - 1, by omega⟩
    simp only [Nat.add_zero] at hsucc
    simp [withRetryGo, hsucc]
  | succ t ih =>
    intro r i j hr hfail hsucc
    obtain ⟨r, rfl⟩ : ∃ r1, r = r1 + 1 := ⟨r - 1, by omega⟩
    obtain ⟨e, he⟩ := hfail 0 (Nat.succ_pos t)
    simp only [Nat.add_zero] at he
    have hr1 : t < r := by omega
    have hfail1 : ∀ s, s < t → ∃ e1, op (i + 1 + s) = .error e1 := by
      intro s hs
      obtain ⟨e1, he1⟩ := hfail (s + 1) (by omega)
      exact ⟨e1, by rw [← he1]; ring_nf⟩
    have hsucc1 : op (i + 1 + t) = .ok v := by rw [← hsucc]; ring_nf
    have hrne : r ≠ 0 := by omega
    obtain ⟨h1, h2, h3⟩ := ih r (i + 1) (j + if isPrepErr e then 1 else 0) hr1 hfail1 hsucc1
    refine ⟨?_, ?_, ?_⟩ <;>
      simp only [withRetryGo, he, hrne, if_false, h1, h2, h3, List.range_succ_eq_map,
        List.map_cons, List.map_map]
    simp only [Nat.add_zero]
    congr 1
    apply List.map_congr_left
    intro a _
    simp only [Function.comp_apply]
    congr 2
    omega

theorem withRetryGo_allfail {α : Type} (op : Nat → Except String α)
    (cl : Nat → Except String Unit) (errf : Nat → String) :
    ∀ (r i j : Nat), 1 ≤ r → (∀ s, s < r → op (i + s) = .error (errf (i + s))) →
      (withRetryGo op cl i j r).result = some (.error (errf (i + r - 1))) ∧
      (withRetryGo op cl i j r).calls = r := by
  intro r
  induction r with
  | zero => intro i j h; omega
  | succ r ih =>
    intro i j _ hfail
    have he : op i = .error (errf i) := by
      have := hfail 0 (Nat.succ_pos r)
      simpa using this
    by_cases hr : r = 0
    · subst hr
      simp [withRetryGo, he]
    · have h1 : ∀ s, s < r → op (i + 1 + s) = .error (errf (i + 1 + s)) := by
        intro s hs
        have := hfail (s + 1) (by omega)
        rw [show i + (s + 1) = i + 1 + s by ring] at this
        exact this
      obtain ⟨g1, g2⟩ := ih (i + 1) (j + if isPrepErr (errf i) then 1 else 0)
        (by omega) h1
      have hidx : i + 1 + r - 1 = i + (r + 1) - 1 := by omega
      constructor
      · rw [← hidx]
        simp [withRetryGo, he, hr, g1]
      · simp [withRetryGo, he, hr, g2]

theorem withRetryGo_indep {α : Type} (op : Nat → Except String α)
    (cl₁ cl₂ : Nat → Except String Unit) :
    ∀ (r i j₁ j₂ : Nat),
      (withRetryGo op cl₁ i j₁ r).result = (withRetryGo op cl₂ i j₂ r).result ∧
      (withRetryGo op cl₁ i j₁ r).calls = (withRetryGo op cl₂ i j₂ r).calls ∧
      (withRetryGo op cl₁ i j₁ r).delays = (withRetryGo op cl₂ i j₂ r).delays ∧
      (withRetryGo op cl₁ i j₁ r).cleanups = (withRetryGo op cl₂ i j₂ r).cleanups := by
  intro r
  induction r with
  | zero => intro i j₁ j₂; simp [withRetryGo]
  | succ r ih =>
    intro i j₁ j₂
    cases hop : op i with
    | ok v => simp [withRetryGo, hop]
    | error e =>
      by_cases hr : r = 0
      · subst hr; simp [withRetryGo, hop]
      · obtain ⟨g1, g2, g3, g4⟩ := ih (i + 1)
          (j₁ + if isPrepErr e then 1 else 0) (j₂ + if isPrepErr e then 1 else 0)
        simp [withRetryGo, hop, hr, g1, g2, g3, g4]

theorem withRetryGo_cleanups {α : Type} (op : Nat → Except String α)
    (cl : Nat → Except String Unit) :
    ∀ (r i j : Nat),
      (withRetryGo op cl i j r).cleanups =
        prepFailCount op i (withRetryGo op cl i j r).calls := by
  intro r
  induction r with
  | zero => intro i j; simp [withRetryGo, prepFailCount]
  | succ r ih =>
    intro i j
    cases hop : op i with
    | ok v => simp [withRetryGo, hop, prepFailCount, errPrep]
    | error e =>
      by_cases hr : r = 0
      · subst hr
        simp [withRetryGo, hop, prepFailCount, errPrep]
      · have := ih (i + 1) (j + if isPrepErr e then 1 else 0)
        simp [withRetryGo, hop, hr, prepFailCount, errPrep, this]

theorem withRetryGo_log {α : Type} (op : Nat → Except String α)
    (cl : Nat → Except String Unit) :
    ∀ (r i j s : Nat) (e : String), s < (withRetryGo op cl i j r).calls →
      op (i + s) = .error e → e ∈ (withRetryGo op cl i j r).log := by
  intro r
  induction r with
  | zero => intro i j s e hs; simp [withRetryGo] at hs
  | succ r ih =>
    intro i j s e hs he
    cases hop : op i with
    | ok v =>
      simp [withRetryGo, hop] at hs
      subst hs
      simp at he
      rw [hop] at he
      exact absurd he (by simp)
    | error e0 =>
      by_cases hr : r = 0
      · subst hr
        simp [withRetryGo, hop] at hs ⊢
        subst hs
        simp at he
        rw [hop] at he
        simp at he
        subst he
        exact Or.inl rfl
      · simp [withRetryGo, hop, hr] at hs ⊢
        cases s with
        | zero =>
          simp at he
          rw [hop] at he
          simp at he
          subst he
          exact Or.inl rfl
        | succ s =>
          have hmem := ih (i + 1) (j + if isPrepErr e0 then 1 else 0) s e
            (by omega) (by rw [← he]; ring_nf)
          exact Or.inr (Or.inr hmem)

theorem withRetryGo_cleanup_log {α : Type} (op : Nat → Except String α)
    (cl : Nat → Except String Unit) :
    ∀ (r i j t : Nat) (ce : String), t < (withRetryGo op cl i j r).cleanups →
      cl (j + t) = .error ce → ce ∈ (withRetryGo op cl i j r).log := by
  intro r
  induction r with
  | zero => intro i j t ce ht; simp [withRetryGo] at ht
  | succ r ih =>
    intro i j t ce ht hce
    cases hop : op i with
    | ok v => simp [withRetryGo, hop] at ht
    | error e0 =>
      by_cases hp : isPrepErr e0
      · by_cases hr : r = 0
        · subst hr
          simp only [withRetryGo, hop, hp, if_true] at ht ⊢
          have ht0 : t = 0 := by omega
          subst ht0
          simp only [Nat.add_zero] at hce
          exact List.mem_cons_of_mem _ (by simp [cleanupLogOf, hp, hce])
        · simp only [withRetryGo, hop, hp, if_true, if_neg hr] at ht ⊢
          cases t with
          | zero =>
            simp only [Nat.add_zero] at hce
            exact List.mem_cons_of_mem _
              (List.mem_append_left _ (by simp [cleanupLogOf, hp, hce]))
          | succ t =>
            have hmem := ih (i + 1) (j + 1) t ce (by omega)
              (by rw [← hce]; ring_nf)
            exact List.mem_cons_of_mem _ (List.mem_append_right _ hmem)
      · have hp0 : (if isPrepErr e0 then 1 else 0) = 0 := by simp [hp]
        by_cases hr : r = 0
        · subst hr
          simp [withRetryGo, hop, hp0] at ht
        · simp only [withRetryGo, hop, hp0, if_neg hr, Nat.add_zero,
            Nat.zero_add] at ht ⊢
          have hmem := ih (i + 1) j t ce (by omega) hce
          exact List.mem_cons_of_mem _ (List.mem_append_right _ hmem)

/-! ## Connection string builder (src/lib/prisma.js, `getDatabaseUrl`)

`getDatabaseUrl` reads `process.env.DATABASE_URL`; if it is absent it is
returned unchanged. Otherwise the URL's search parameters gain each of the
five pooling defaults that is not already present (`URLSearchParams.set`
appends a new key at the end) and the URL is serialised back. The URL is
modelled as its non-query part plus the ordered list of query key/value
pairs. -/

/-- A connection URL: everything outside the query string, plus the ordered
search parameters. -/
structure UrlModel where
  base : String
  params : List (String × String)
deriving DecidableEq

/-- `url.searchParams.has(k)`. -/
def hasParam (u : UrlModel) (k : String) : Bool :=
  u.params.any (fun p => p.1 == k)

/-- The `if (!url.searchParams.has(k)) url.searchParams.set(k, v)` pattern:
append the pair when the key is absent. -/
def setIfAbsent (u : UrlModel) (k v : String) : UrlModel :=
  if hasParam u k then u else { u with params := u.params ++ [(k, v)] }

/-- The five defaults of src/lib/prisma.js lines 12-27, in program order. -/
def poolDefaults : List (String × String) :=
  [("connection_limit", "5"), ("pool_timeout", "10"), ("schema", "public"),
   ("statement_timeout", "30s"), ("idle_in_transaction_session_timeout", "30s")]

/-- Fold the conditional `set` calls over a list of defaults. -/
def addDefaults (u : UrlModel) (ds : List (String × String)) : UrlModel :=
  ds.foldl (fun acc d => setIfAbsent acc d.1 d.2) u

/-- `getDatabaseUrl` from src/lib/prisma.js lines 6-30. -/
def getDatabaseUrl (baseUrl : Option UrlModel) : Option UrlModel :=
  match baseUrl with
  | none => none
  | some u => some (addDefaults u poolDefaults)

theorem hasParam_append_single (u : UrlModel) (k : String) (d : String × String) :
    hasParam { u with params := u.params ++ [d] } k =
      (hasParam u k || d.1 == k) := by
  simp [hasParam]

theorem addDefaults_params (ds : List (String × String)) :
    ∀ u : UrlModel, (ds.map Prod.fst).Nodup →
      addDefaults u ds =
        { base := u.base,
          params := u.params ++ ds.filter (fun d => !hasParam u d.1) } := by
  induction ds with
  | nil => intro u _; simp [addDefaults]
  | cons d ds ih =>
    intro u hnd
    simp only [List.map_cons, List.nodup_cons, List.mem_map] at hnd
    obtain ⟨hd, hnd⟩ := hnd
    by_cases hp : hasParam u d.1
    · have : setIfAbsent u d.1 d.2 = u := by simp [setIfAbsent, hp]
      rw [addDefaults, List.foldl_cons, this, ← addDefaults, ih u hnd]
      simp [List.filter_cons, hp]
    · have hstep : setIfAbsent u d.1 d.2 =
          { u with params := u.params ++ [(d.1, d.2)] } := by
        simp [setIfAbsent, hp]
      rw [addDefaults, List.foldl_cons, hstep, ← addDefaults,
        ih _ hnd]
      have hsame : ∀ x ∈ ds, hasParam { u with params := u.params ++ [(d.1, d.2)] } x.1 =
          hasParam u x.1 := by
        intro x hx
        rw [hasParam_append_single]
        have : (d.1 == x.1) = false := by
          simp only [beq_eq_false_iff_ne, ne_eq]
          intro hcontra
          exact absurd ⟨x, hx, hcontra.symm⟩ hd
        simp only [this]
        cases hasParam u x.1 <;> simp
      simp only [List.filter_cons, hp, Bool.not_false, if_pos]
      rw [List.filter_congr (by intro x hx; rw [hsame x hx])]
      simp

/-! ## Confidence extraction (src/index.js, `extractConfidence`)

`text.match(/CONFIDENCE SCORE:\s*(\d+)%/i)` finds the leftmost position at
which the literal matches case-insensitively, followed by optional
whitespace, one or more digits and a percent sign; the digits divided by
100 are returned, and `null` when there is no match anywhere. -/

/-- JS `\s` whitespace class (the members that matter here). -/
def isJsWs (c : Char) : Bool :=
  c = ' ' || c = Char.ofNat 9 || c = Char.ofNat 10 || c = Char.ofNat 13 ||
  c = Char.ofNat 11 || c = Char.ofNat 12 || c = Char.ofNat 0xa0 ||
  c = Char.ofNat 0xfeff || c = Char.ofNat 0x2028 || c = Char.ofNat 0x2029

/-- Case-insensitive character comparison for the `i` regex flag. -/
def ciEq (a b : Char) : Bool := a.toLower == b.toLower

/-- Match a literal pattern case-insensitively at the head of the text,
returning the rest of the text. -/
def matchCI : List Char → List Char → Option (List Char)
  | [], l => some l
  | _ :: _, [] => none
  | p :: ps, c :: cs => if ciEq p c then matchCI ps cs else none

/-- Decimal value of a digit run (what `parseFloat` yields on `\d+`). -/
def digitsToNat (ds : List Char) : Nat :=
  ds.foldl (fun acc c => acc * 10 + (c.toNat - 48)) 0

/-- Try `/CONFIDENCE SCORE:\s*(\d+)%/i` at this exact position. -/
def matchConfAt (l : List Char) : Option Nat :=
  match matchCI "CONFIDENCE SCORE:".toList l with
  | none => none
  | some rest =>
    let rest2 := rest.dropWhile isJsWs
    let ds := rest2.takeWhile Char.isDigit
    if ds.isEmpty then none
    else
      match rest2.drop ds.length with
      | c :: _ => if c = '%' then some (digitsToNat ds) else none
      | [] => none

/-- Scan left to right for the first position where the pattern matches,
as the non-global regex does. -/
def findConf : List Char → Option Nat
  | [] => none
  | c :: rest =>
    match matchConfAt (c :: rest) with
    | some n => some n
    | none => findConf rest

/-- `extractConfidence` from src/index.js lines 277-283: `N / 100` for the
first match, `null` otherwise. -/
def extractConfidence (text : String) : Option ℚ :=
  (findConf text.toList).map (fun n => (n : ℚ) / 100)

theorem findConf_characterisation : ∀ l : List Char,
    (findConf l = none ↔ ∀ i, matchConfAt (l.drop i) = none) ∧
    (∀ i n, matchConfAt (l.drop i) = some n →
      (∀ j, j < i → matchConfAt (l.drop j) = none) → findConf l = some n) := by
  intro l
  induction l with
  | nil =>
    constructor
    · constructor
      · intro _ i
        simp only [List.drop_nil]
        decide
      · intro _; rfl
    · intro i n hi _
      simp only [List.drop_nil] at hi
      rw [show matchConfAt [] = none by decide] at hi
      cases hi
  | cons c rest ih =>
    obtain ⟨ih1, ih2⟩ := ih
    cases hm : matchConfAt (c :: rest) with
    | some n =>
      constructor
      · constructor
        · intro hnone
          rw [findConf, hm] at hnone
          cases hnone
        · intro hall
          have := hall 0
          simp only [List.drop_zero] at this
          rw [hm] at this
          cases this
      · intro i m hi hmin
        cases i with
        | zero =>
          simp only [List.drop_zero] at hi
          rw [findConf, hm]
          rw [hm] at hi
          exact hi
        | succ i =>
          have := hmin 0 (Nat.succ_pos i)
          simp only [List.drop_zero] at this
          rw [hm] at this
          cases this
    | none =>
      have heq : findConf (c :: rest) = findConf rest := by
        rw [findConf, hm]
      constructor
      · rw [heq, ih1]
        constructor
        · intro h i
          cases i with
          | zero => simpa using hm
          | succ i => exact h i
        · intro h i
          exact h (i + 1)
      · intro i n hi hmin
        cases i with
        | zero =>
          simp only [List.drop_zero] at hi
          rw [hm] at hi
          cases hi
        | succ i =>
          rw [heq]
          exact ih2 i n hi (fun j hj => hmin (j + 1) (by omega))

/-! ## Login handler (src/index.js, `app.post('/auth/login')`)

The handler rejects a missing/empty username or password with a 400,
looks the user up (via the retry wrapper; a successful lookup returns the
store's answer unchanged), answers `401 {error: 'Invalid credentials'}`
both when no user exists and when `bcrypt.compare` fails, and otherwise
signs a token over the user's id and username. `bcrypt.compare` and
`jwt.sign` are external and appear as parameters. -/

/-- A stored user row. -/
structure AuthUser where
  id : Nat
  username : String
  password : String
deriving DecidableEq

/-- Outcome of the login handler, tagged with the HTTP status it is sent
with. -/
inductive LoginResult where
  | badRequest (msg : String)
  | unauthorized (msg : String)
  | success (token : String) (id : Nat) (username : String)
deriving DecidableEq

/-- HTTP status code of a login outcome. -/
def statusCode : LoginResult → Nat
  | .badRequest _ => 400
  | .unauthorized _ => 401
  | .success _ _ _ => 200

/-- The login handler body, src/index.js lines 115-151. -/
def login (lookup : String → Option AuthUser) (cmp : String → String → Bool)
    (sign : Nat → String → String) (username password : String) : LoginResult :=
  if username == "" || password == "" then
    .badRequest "Username and password required"
  else
    match lookup username with
    | none => .unauthorized "Invalid credentials"
    | some user =>
      if cmp password user.password then
        .success (sign user.id user.username) user.id user.username
      else .unauthorized "Invalid credentials"

/-! ## Markdown stripping (src/index.js, `callClaudeAPI` lines 254-269)

On a successful completion call the response text goes through four
global replacements, in this order:
  1. `/^#{1,6}\s+/gm` → `''`   (heading markers at line starts)
  2. `/\*\*(.*?)\*\*/g` → `'$1'` (bold wrapping, lazy, `.` excludes line
     terminators)
  3. `` /`([^`]+)`/g `` → `'$1'` (inline code)
  4. ```` /```[\s\S]*?```/g ```` → `''` (fenced blocks, lazy)
Each is embedded as a left-to-right scan with JS backtracking semantics:
a failed match attempt advances one character, a successful one resumes
after the match. -/

/-- The backtick character. -/
def btick : Char := Char.ofNat 96

/-- JS line terminators: the characters `.` does not match and after which
multiline `^` matches. -/
def isLineTerm (c : Char) : Bool :=
  c = Char.ofNat 10 || c = Char.ofNat 13 ||
  c = Char.ofNat 0x2028 || c = Char.ofNat 0x2029

/-- A character the regex `.` matches. -/
def isDotChar (c : Char) : Bool := !isLineTerm c

/-- Attempt `#{1,6}\s+` at a line start: the whole run of `#` must be 1-6
long and be followed by at least one whitespace character; the greedy
`\s+` swallows the maximal whitespace run (newlines included). Returns
whether the position after the match is again a line start, and the rest
of the text. -/
def tryHeading (l : List Char) : Option (Bool × List Char) :=
  let hashes := l.takeWhile (fun c => c = '#')
  if hashes.length < 1 || 6 < hashes.length then none
  else
    let after := l.drop hashes.length
    let ws := after.takeWhile isJsWs
    match ws.getLast? with
    | none => none
    | some w => some (isLineTerm w, after.drop ws.length)

/-- The scan for replacement 1; the boolean says whether the current
position is a line start. The `fuel` argument only bounds the recursion:
every step consumes at least one character, so `fuel = l.length` never
runs out. -/
def stripHeadings : Nat → Bool → List Char → List Char
  | 0, _, l => l
  | _, _, [] => []
  | fuel + 1, atStart, c :: rest =>
    match (if atStart then tryHeading (c :: rest) else none) with
    | some p => stripHeadings fuel p.1 p.2
    | none => c :: stripHeadings fuel (isLineTerm c) rest

/-- Replacement 1 over a whole text. -/
def replaceHeadings (l : List Char) : List Char := stripHeadings l.length true l

/-- Search for the lazy closing `**`: the middle may only contain `.`
characters; returns the middle and the text after the closing pair. -/
def findBoldClose : List Char → Option (List Char × List Char)
  | [] => none
  | c :: rest =>
    if c = '*' ∧ rest.head? = some '*' then some ([], rest.tail)
    else if isDotChar c then
      (findBoldClose rest).map (fun p => (c :: p.1, p.2))
    else none

/-- The scan for replacement 2 (`/\*\*(.*?)\*\*/g` → `'$1'`); fuel as in
`stripHeadings`. -/
def replaceBoldGo : Nat → List Char → List Char
  | 0, l => l
  | _, [] => []
  | fuel + 1, c :: rest =>
    if c = '*' ∧ rest.head? = some '*' then
      match findBoldClose rest.tail with
      | some p => p.1 ++ replaceBoldGo fuel p.2
      | none => c :: replaceBoldGo fuel rest
    else c :: replaceBoldGo fuel rest

/-- Replacement 2 over a whole text. -/
def replaceBold (l : List Char) : List Char := replaceBoldGo l.length l

/-- Split at the first backtick: the characters before it and the text
after it. -/
def splitTick : List Char → Option (List Char × List Char)
  | [] => none
  | c :: rest =>
    if c = btick then some ([], rest)
    else (splitTick rest).map (fun p => (c :: p.1, p.2))

/-- The scan for replacement 3 (`` /`([^`]+)`/g `` → `'$1'`): the greedy
class demands a non-empty run of non-backticks closed by a backtick;
fuel as in `stripHeadings`. -/
def replaceInlineGo : Nat → List Char → List Char
  | 0, l => l
  | _, [] => []
  | fuel + 1, c :: rest =>
    if c = btick then
      match splitTick rest with
      | some p =>
        if p.1.isEmpty then c :: replaceInlineGo fuel rest
        else p.1 ++ replaceInlineGo fuel p.2
      | none => c :: replaceInlineGo fuel rest
    else c :: replaceInlineGo fuel rest

/-- Replacement 3 over a whole text. -/
def replaceInline (l : List Char) : List Char := replaceInlineGo l.length l

/-- Find the lazy closing backtick triple: drop everything up to and
including the first one. -/
def findFenceClose : List Char → Option (List Char)
  | [] => none
  | c :: rest =>
    if c = btick ∧ rest.head? = some btick ∧ rest.tail.head? = some btick then
      some rest.tail.tail
    else findFenceClose rest

/-- The scan for replacement 4 (the fenced-block pattern → `''`); fuel as
in `stripHeadings`. -/
def replaceFencesGo : Nat → List Char → List Char
  | 0, l => l
  | _, [] => []
  | fuel + 1, c :: rest =>
    if c = btick ∧ rest.head? = some btick ∧ rest.tail.head? = some btick then
      match findFenceClose rest.tail.tail with
      | some after => replaceFencesGo fuel after
      | none => c :: replaceFencesGo fuel rest
    else c :: replaceFencesGo fuel rest

/-- Replacement 4 over a whole text. -/
def replaceFences (l : List Char) : List Char := replaceFencesGo l.length l

/-- The whole post-processing pipeline of `callClaudeAPI`, in program
order: headings, then bold, then inline code, then fenced blocks. -/
def cleanResponse (s : String) : String :=
  String.mk (replaceFences (replaceInline (replaceBold (replaceHeadings s.toList))))

/-! ## Section parser (src/index.js, `parseReasoning` / `extractSection`)

`extractSection(text, headings)` tries, for each heading synonym in order,
the regex `new RegExp(heading + ':?\\s*([\\s\\S]*?)(?=\\n\\n[A-Z\\s]+:|$)', 'i')`:
the heading is found case-insensitively anywhere, an optional colon and
greedy whitespace are skipped, and the lazy capture stops at the first
position where two newlines are followed by a non-empty run of letters or
whitespace and a colon (`[A-Z\s]+:` under the `i` flag also matches
lowercase letters), or at the end of the text. A match whose capture is
the empty string is falsy in JS, so the loop moves to the next synonym;
if no synonym produces a non-empty capture the fixed placeholder is
returned, else the capture is `trim`med. -/

/-- `[A-Z\s]` under the `i` flag: any ASCII letter or whitespace. -/
def isHeadClassChar (c : Char) : Bool := c.isAlpha || isJsWs c

/-- The lookahead `(?=\n\n[A-Z\s]+:)` at the current position. -/
def lookaheadHolds (l : List Char) : Bool :=
  match l with
  | a :: b :: rest =>
    if a = Char.ofNat 10 ∧ b = Char.ofNat 10 then
      let run := rest.takeWhile isHeadClassChar
      !run.isEmpty &&
        (match rest.drop run.length with
         | c :: _ => c = ':'
         | [] => false)
    else false
  | _ => false

/-- The lazy capture `([\s\S]*?)`: everything up to the first position
where the lookahead holds, or to the end. -/
def captureUntil : List Char → List Char
  | [] => []
  | c :: rest => if lookaheadHolds (c :: rest) then [] else c :: captureUntil rest

/-- JS `String.prototype.trim`. -/
def trimStr (l : List Char) : List Char :=
  (((l.dropWhile isJsWs).reverse.dropWhile isJsWs).reverse)

/-- First case-insensitive occurrence of `pat`; returns the text after it. -/
def findCI (pat : List Char) : List Char → Option (List Char)
  | [] => matchCI pat []
  | c :: rest =>
    match matchCI pat (c :: rest) with
    | some r => some r
    | none => findCI pat rest

/-- `extractSection` from src/index.js lines 481-490. -/
def extractSection (text : String) : List String → String
  | [] => "See full analysis above"
  | h :: hs =>
    match findCI h.toList text.toList with
    | none => extractSection text hs
    | some rest =>
      let rest1 := if rest.head? = some ':' then rest.tail else rest
      let captured := captureUntil (rest1.dropWhile isJsWs)
      if captured.isEmpty then extractSection text hs
      else String.mk (trimStr captured)

/-- The five named sections produced by `parseReasoning`. -/
structure Reasoning where
  summary : String
  rationale : String
  evidence : String
  alternatives : String
  risks : String
deriving DecidableEq

/-- `parseReasoning` from src/index.js lines 469-479. -/
def parseReasoning (text : String) : Reasoning :=
  ⟨extractSection text ["DECISION SUMMARY", "SUMMARY", "RECOMMENDATION"],
   extractSection text ["PRIMARY RATIONALE", "RATIONALE", "REASONING"],
   extractSection text ["SUPPORTING EVIDENCE", "EVIDENCE", "RESEARCH"],
   extractSection text ["ALTERNATIVES CONSIDERED", "ALTERNATIVES", "OTHER OPTIONS"],
   extractSection text ["RISK ASSESSMENT", "RISKS", "SAFETY"]⟩

theorem findCI_eq_none (pat : List Char) :
    ∀ l : List Char, (∀ i, matchCI pat (l.drop i) = none) → findCI pat l = none := by
  intro l
  induction l with
  | nil =>
    intro h
    have := h 0
    simpa [findCI] using this
  | cons c rest ih =>
    intro h
    have h0 := h 0
    simp only [List.drop_zero] at h0
    rw [findCI, h0]
    exact ih (fun i => h (i + 1))

theorem dropWhile_head_false (p : Char → Bool) :
    ∀ (l : List Char) (c : Char) (r : List Char),
      l.dropWhile p = c :: r → p c = false := by
  intro l
  induction l with
  | nil => intro c r h; cases h
  | cons a as ih =>
    intro c r h
    rw [List.dropWhile_cons] at h
    split at h
    · exact ih c r h
    · rename_i hpa
      obtain ⟨h1, -⟩ := List.cons.injEq .. ▸ h
      subst h1
      simpa using hpa

theorem trimStr_ne_nil (c : Char) (l : List Char) (hc : isJsWs c = false) :
    trimStr (c :: l) ≠ [] := by
  intro hcontra
  rw [trimStr] at hcontra
  rw [List.dropWhile_cons, if_neg (by simp [hc])] at hcontra
  have hrev : ((c :: l).reverse).dropWhile isJsWs = [] := by
    simpa using hcontra
  rw [List.dropWhile_eq_nil_iff] at hrev
  have hcmem : c ∈ (c :: l).reverse := by simp
  have := hrev c hcmem
  rw [hc] at this
  cases this

theorem extractSection_no_heading (text : String) :
    ∀ hs : List String,
      (∀ h, h ∈ hs → ∀ i, matchCI h.toList (text.toList.drop i) = none) →
      extractSection text hs = "See full analysis above" := by
  intro hs
  induction hs with
  | nil => intro _; rfl
  | cons h0 hs ih =>
    intro hall
    have hnone : findCI h0.toList text.toList = none :=
      findCI_eq_none _ _ (hall h0 (by simp))
    rw [extractSection, hnone]
    exact ih (fun h hh i => hall h (by simp [hh]) i)

theorem extractSection_ne_empty (text : String) :
    ∀ hs : List String, extractSection text hs ≠ "" := by
  intro hs
  induction hs with
  | nil =>
    rw [extractSection]
    intro hcontra
    have := congrArg String.data hcontra
    simp at this
  | cons h0 hs ih =>
    rw [extractSection]
    cases hf : findCI h0.toList text.toList with
    | none => exact ih
    | some rest =>
      simp only
      generalize (if rest.head? = some ':' then rest.tail else rest) = rest1
      cases hd : rest1.dropWhile isJsWs with
      | nil => simpa [captureUntil] using ih
      | cons c r =>
        have hcfalse : isJsWs c = false := dropWhile_head_false _ _ _ _ hd
        rw [captureUntil]
        by_cases hla : lookaheadHolds (c :: r)
        · simpa [hla] using ih
        · simp only [hla, if_false, List.isEmpty_cons, Bool.false_eq_true]
          intro hcontra
          have hdata := congrArg String.data hcontra
          exact trimStr_ne_nil c (captureUntil r) hcfalse (by simpa using hdata)

/-! ## Document listing (src/index.js, `app.get('/documents')`)

The handler forwards the five optional query parameters unchanged into
the store query's `where` clause and orders by `createdAt` descending.
The store itself is external; it is modelled with the ORM's documented
filter semantics over the schema of prisma/migrations: the four
`TEXT`-typed columns (`country`, `region`, `disease`, `documentType`)
take plain string equality filters — an `undefined` (absent) field
imposes no constraint, a present string (the empty string included) is
an exact-match constraint — while the `type` column is the closed
`DocumentType` enumeration, so a present `type` filter is first
validated against the enum members and a non-member string (the empty
string included) makes the query fail with a validation error, which the
route's catch turns into a 500 response instead of a result set. -/

/-- The closed enumeration behind the `type` column
(`CREATE TYPE "DocumentType" AS ENUM (...)` in the initial migration). -/
inductive DocumentType where
  | PROTOCOL
  | STUDY_DESIGN
  | REGULATORY
  | OTHER
deriving DecidableEq

/-- Validation of a query value against the closed enum, as the ORM
performs before building the filter: a string that names no member is
rejected. -/
def parseDocType (s : String) : Option DocumentType :=
  if s = "PROTOCOL" then some .PROTOCOL
  else if s = "STUDY_DESIGN" then some .STUDY_DESIGN
  else if s = "REGULATORY" then some .REGULATORY
  else if s = "OTHER" then some .OTHER
  else none

/-- The `where` clause built from `req.query`: `none` models an absent
parameter (`undefined`), `some s` a present one (including `some ""`). -/
structure DocWhere where
  type : Option String
  country : Option String
  region : Option String
  disease : Option String
  documentType : Option String
deriving DecidableEq

/-- A stored document row (the fields the route filters on); the storage
layer only admits enum members in `type`. -/
structure Doc where
  id : String
  type : DocumentType
  country : String
  region : String
  disease : String
  documentType : String
  createdAt : Nat
deriving DecidableEq

/-- One ORM string-field filter: absent → no constraint, present →
equality. -/
def optMatch (q : Option String) (v : String) : Bool :=
  match q with
  | none => true
  | some s => s == v

/-- Conjunction of the four string-field filters. -/
def strMatches (w : DocWhere) (d : Doc) : Bool :=
  optMatch w.country d.country && optMatch w.region d.region &&
    optMatch w.disease d.disease && optMatch w.documentType d.documentType

/-- `prisma.document.findMany({ where, orderBy: { createdAt: 'desc' } })`
as invoked by the route: a present `type` filter is validated against the
enum (a non-member value raises a validation error that the route reports
as a 500); otherwise the rows matching all present filters are returned
newest-first. -/
def findManyDocs (db : List Doc) (w : DocWhere) : Except String (List Doc) :=
  match w.type with
  | none =>
    .ok (List.insertionSort (fun a b => b.createdAt ≤ a.createdAt)
      (db.filter (fun d => strMatches w d)))
  | some s =>
    match parseDocType s with
    | none => .error "PrismaClientValidationError: invalid value for argument type"
    | some t =>
      .ok (List.insertionSort (fun a b => b.createdAt ≤ a.createdAt)
        (db.filter (fun d => d.type == t && strMatches w d)))

theorem optMatch_iff (q : Option String) (v : String) :
    optMatch q v = true ↔ ∀ s, q = some s → v = s := by
  cases q with
  | none => simp [optMatch]
  | some s0 =>
    simp only [optMatch, beq_iff_eq, Option.some.injEq]
    constructor
    · intro h s hs
      exact h.symm.trans hs
    · intro h
      exact (h s0 rfl).symm

/-! ## Claim theorems -/

/-- C1: for `maxRetries ≥ 1`, if the operation fails on its first `k-1`
invocations and succeeds on invocation `k ≤ maxRetries`, `withRetry`
returns the successful result, invokes the operation exactly `k` times and
sleeps `1000·2^0, 1000·2^1, …` milliseconds (1s, 2s, 4s, …) between
consecutive attempts — a success is never retried; if every one of the
`maxRetries` invocations fails, it invokes the operation exactly
`maxRetries` times and re-raises the last error unchanged. -/
theorem withRetry_retry_contract {α : Type} (op : Nat → Except String α)
    (cl : Nat → Except String Unit) (maxRetries : Int) (k : Nat) (v : α)
    (errf : Nat → String) (hk : 1 ≤ k) (hkm : (k : Int) ≤ maxRetries) :
    ((∀ s, s < k - 1 → op s = .error (errf s)) → op (k - 1) = .ok v →
      (withRetry op cl maxRetries).result = some (.ok v) ∧
      (withRetry op cl maxRetries).calls = k ∧
      (withRetry op cl maxRetries).delays =
        (List.range (k - 1)).map (fun s => 1000 * 2 ^ s)) ∧
    ((∀ s, s < maxRetries.toNat → op s = .error (errf s)) →
      (withRetry op cl maxRetries).result =
        some (.error (errf (maxRetries.toNat - 1))) ∧
      (withRetry op cl maxRetries).calls = maxRetries.toNat) := by
  constructor
  · intro hfail hsucc
    have ht : k - 1 < maxRetries.toNat := by omega
    obtain ⟨h1, h2, h3⟩ := withRetryGo_success op cl v (k - 1) maxRetries.toNat 0 0 ht
      (fun s hs => ⟨errf s, by simpa using hfail s hs⟩) (by simpa using hsucc)
    refine ⟨h1, ?_, ?_⟩
    · rw [withRetry]
      omega
    · rw [withRetry, h3]
      simp
  · intro hfail
    have h := withRetryGo_allfail op cl errf maxRetries.toNat 0 0 (by omega)
      (fun s hs => by simpa using hfail s hs)
    simpa [withRetry] using h

/-- Witness for C1: an operation failing twice then returning 42 gives
result 42 after exactly 3 calls with 1s and 2s waits; an operation that
always fails raises its error after exactly 3 calls. -/
theorem withRetry_retry_contract_witness :
    ((withRetry (fun s => if s < 2 then Except.error "boom" else Except.ok (42 : Nat))
        (fun _ => Except.ok ()) 3).result = some (Except.ok 42) ∧
      (withRetry (fun s => if s < 2 then Except.error "boom" else Except.ok (42 : Nat))
        (fun _ => Except.ok ()) 3).calls = 3 ∧
      (withRetry (fun s => if s < 2 then Except.error "boom" else Except.ok (42 : Nat))
        (fun _ => Except.ok ()) 3).delays = [1000, 2000]) ∧
    ((withRetry (fun _ => (Except.error "down" : Except String Nat))
        (fun _ => Except.ok ()) 3).result = some (Except.error "down") ∧
      (withRetry (fun _ => (Except.error "down" : Except String Nat))
        (fun _ => Except.ok ()) 3).calls = 3) := by
  constructor
  · have h := (withRetry_retry_contract
        (fun s => if s < 2 then Except.error "boom" else Except.ok (42 : Nat))
        (fun _ => Except.ok ()) 3 3 42 (fun _ => "boom") (by norm_num) (by norm_num)).1
      (fun s hs => by rw [if_pos (show s < 2 by omega)]) rfl
    refine ⟨h.1, h.2.1, ?_⟩
    rw [h.2.2]
    decide
  · have h := (withRetry_retry_contract
        (fun _ => (Except.error "down" : Except String Nat))
        (fun _ => Except.ok ()) 3 1 0 (fun _ => "down") (by norm_num) (by norm_num)).2
      (fun s _ => rfl)
    exact h

/-- C7: the cleanup command runs exactly once per failed attempt whose
message contains both "prepared statement" and "already exists"; the
cleanup outcomes never change the returned value, the raised error, the
number of attempts or the waits; every attempt error is logged (the
terminal one also being re-raised), and a failing cleanup is logged and
swallowed. -/
theorem withRetry_cleanup_contract {α : Type} (op : Nat → Except String α)
    (cl : Nat → Except String Unit) (maxRetries : Int) :
    (withRetry op cl maxRetries).cleanups =
      prepFailCount op 0 (withRetry op cl maxRetries).calls ∧
    (∀ cl₂ : Nat → Except String Unit,
      (withRetry op cl maxRetries).result = (withRetry op cl₂ maxRetries).result ∧
      (withRetry op cl maxRetries).calls = (withRetry op cl₂ maxRetries).calls ∧
      (withRetry op cl maxRetries).delays = (withRetry op cl₂ maxRetries).delays) ∧
    (∀ s e, s < (withRetry op cl maxRetries).calls → op s = .error e →
      e ∈ (withRetry op cl maxRetries).log) ∧
    (∀ t ce, t < (withRetry op cl maxRetries).cleanups → cl t = .error ce →
      ce ∈ (withRetry op cl maxRetries).log) := by
  refine ⟨withRetryGo_cleanups op cl maxRetries.toNat 0 0, fun cl₂ => ?_,
    fun s e hs he => ?_, fun t ce ht hc => ?_⟩
  · obtain ⟨g1, g2, g3, -⟩ := withRetryGo_indep op cl cl₂ maxRetries.toNat 0 0 0
    exact ⟨g1, g2, g3⟩
  · exact withRetryGo_log op cl maxRetries.toNat 0 0 s e hs (by simpa using he)
  · exact withRetryGo_cleanup_log op cl maxRetries.toNat 0 0 t ce ht (by simpa using hc)

/-- Witness for C7: a prepared-statement failure with a failing cleanup —
both messages are logged and the result is the same as with a succeeding
cleanup. -/
theorem withRetry_cleanup_contract_witness :
    "prepared statement s0 already exists" ∈
      (withRetry (fun _ => (Except.error "prepared statement s0 already exists" :
          Except String Nat)) (fun _ => Except.error "cleanup down") 2).log ∧
    "cleanup down" ∈
      (withRetry (fun _ => (Except.error "prepared statement s0 already exists" :
          Except String Nat)) (fun _ => Except.error "cleanup down") 2).log ∧
    (withRetry (fun _ => (Except.error "prepared statement s0 already exists" :
        Except String Nat)) (fun _ => Except.error "cleanup down") 2).result =
      (withRetry (fun _ => (Except.error "prepared statement s0 already exists" :
        Except String Nat)) (fun _ => Except.ok ()) 2).result := by
  have h := withRetry_cleanup_contract
    (fun _ => (Except.error "prepared statement s0 already exists" : Except String Nat))
    (fun _ => Except.error "cleanup down") 2
  exact ⟨h.2.2.1 0 _ (by decide) rfl, h.2.2.2 0 _ (by decide) rfl,
    (h.2.1 (fun _ => Except.ok ())).1⟩

/-- C9: with `maxRetries ≤ 0` the loop body never runs: `withRetry`
returns `undefined` (no result, no error) and never invokes the
operation. -/
theorem withRetry_nonpositive {α : Type} (op : Nat → Except String α)
    (cl : Nat → Except String Unit) (maxRetries : Int) (h : maxRetries ≤ 0) :
    withRetry op cl maxRetries = ⟨none, 0, [], 0, []⟩ := by
  have h0 : maxRetries.toNat = 0 := by omega
  rw [withRetry, h0, withRetryGo]

/-- Witness for C9 at `maxRetries = -1`. -/
theorem withRetry_nonpositive_witness :
    withRetry (fun _ => (Except.ok 7 : Except String Nat)) (fun _ => Except.ok ())
      (-1) = ⟨none, 0, [], 0, []⟩ :=
  withRetry_nonpositive _ _ (-1) (by norm_num)

/-- C2: on a present base URL, `getDatabaseUrl` appends exactly those of
the five pooling defaults whose key is absent, in program order with their
fixed values, and keeps every existing parameter unchanged. -/
theorem getDatabaseUrl_adds_missing (u : UrlModel) :
    getDatabaseUrl (some u) =
      some { base := u.base,
             params := u.params ++ poolDefaults.filter (fun d => !hasParam u d.1) } := by
  rw [getDatabaseUrl, addDefaults_params poolDefaults u (by decide)]

/-- C8: an absent base URL is returned unchanged, with no error. -/
theorem getDatabaseUrl_absent : getDatabaseUrl none = none := rfl

/-- C3 counterexample: a text that ends with the trailing annotation
`CONFIDENCE SCORE: 82%` but contains an earlier annotation; the regex is
not anchored, so `extractConfidence` returns the first match 50/100, not
82/100 as the claim requires. -/
theorem extractConfidence_not_trailing :
    List.isSuffixOf "CONFIDENCE SCORE: 82%".toList
      "CONFIDENCE SCORE: 50% x CONFIDENCE SCORE: 82%".toList = true ∧
    extractConfidence "CONFIDENCE SCORE: 50% x CONFIDENCE SCORE: 82%" =
      some ((50 : ℚ) / 100) ∧
    extractConfidence "CONFIDENCE SCORE: 50% x CONFIDENCE SCORE: 82%" ≠
      some ((82 : ℚ) / 100) := by
  have hfind : findConf "CONFIDENCE SCORE: 50% x CONFIDENCE SCORE: 82%".toList =
      some 50 := by decide
  refine ⟨by decide, ?_, ?_⟩
  · rw [extractConfidence, hfind]
    norm_num
  · rw [extractConfidence, hfind]
    intro hc
    norm_num at hc

/-- C3 amended: `extractConfidence` returns `N/100` for the first
occurrence of the pattern `CONFIDENCE SCORE: N%` anywhere in the text
(case-insensitively), and `null` exactly when the pattern occurs
nowhere. -/
theorem extractConfidence_first_match (text : String) :
    (extractConfidence text = none ↔ ∀ i, matchConfAt (text.toList.drop i) = none) ∧
    (∀ i n, matchConfAt (text.toList.drop i) = some n →
      (∀ j, j < i → matchConfAt (text.toList.drop j) = none) →
      extractConfidence text = some ((n : ℚ) / 100)) := by
  obtain ⟨h1, h2⟩ := findConf_characterisation text.toList
  constructor
  · rw [extractConfidence]
    constructor
    · intro h
      apply h1.mp
      cases hf : findConf text.toList with
      | none => rfl
      | some n => rw [hf] at h; simp at h
    · intro h
      rw [h1.mpr h]
      rfl
  · intro i n hi hmin
    rw [extractConfidence, h2 i n hi hmin]
    rfl

/-- Witness for C3's amended theorem at a concrete annotated text. -/
theorem extractConfidence_first_match_witness :
    extractConfidence "CONFIDENCE SCORE: 82%" = some ((82 : Nat) / 100 : ℚ) := by
  apply (extractConfidence_first_match "CONFIDENCE SCORE: 82%").2 0 82
  · decide
  · intro j hj
    exact absurd hj (Nat.not_lt_zero j)

/-- C4: with non-empty credentials, an unknown username and a known
username with a failing hash comparison both produce status 401 with the
identical body `Invalid credentials`; the two responses are equal, so the
two failure causes are indistinguishable. -/
theorem login_uniform_401 (lookup : String → Option AuthUser)
    (cmp : String → String → Bool) (sign : Nat → String → String)
    (u₁ p₁ u₂ p₂ : String) (user : AuthUser)
    (h₁ : u₁ ≠ "") (h₂ : p₁ ≠ "") (h₃ : u₂ ≠ "") (h₄ : p₂ ≠ "")
    (hmiss : lookup u₁ = none) (hfind : lookup u₂ = some user)
    (hbad : cmp p₂ user.password = false) :
    login lookup cmp sign u₁ p₁ = .unauthorized "Invalid credentials" ∧
    login lookup cmp sign u₂ p₂ = .unauthorized "Invalid credentials" ∧
    statusCode (login lookup cmp sign u₁ p₁) = 401 ∧
    login lookup cmp sign u₁ p₁ = login lookup cmp sign u₂ p₂ := by
  have e1 : login lookup cmp sign u₁ p₁ = .unauthorized "Invalid credentials" := by
    rw [login, if_neg (by simp [h₁, h₂]), hmiss]
  have e2 : login lookup cmp sign u₂ p₂ = .unauthorized "Invalid credentials" := by
    rw [login, if_neg (by simp [h₃, h₄]), hfind]
    simp [hbad]
  exact ⟨e1, e2, by rw [e1]; rfl, by rw [e1, e2]⟩

/-- Witness for C4 with a one-user store and a hash comparison that
always fails. -/
theorem login_uniform_401_witness :
    login (fun s => if s = "alice" then some ⟨1, "alice", "hashed"⟩ else none)
        (fun _ _ => false) (fun _ _ => "tok") "bob" "pw1" =
      LoginResult.unauthorized "Invalid credentials" ∧
    login (fun s => if s = "alice" then some ⟨1, "alice", "hashed"⟩ else none)
        (fun _ _ => false) (fun _ _ => "tok") "alice" "pw2" =
      LoginResult.unauthorized "Invalid credentials" ∧
    statusCode (login (fun s => if s = "alice" then some ⟨1, "alice", "hashed"⟩ else none)
        (fun _ _ => false) (fun _ _ => "tok") "bob" "pw1") = 401 ∧
    login (fun s => if s = "alice" then some ⟨1, "alice", "hashed"⟩ else none)
        (fun _ _ => false) (fun _ _ => "tok") "bob" "pw1" =
      login (fun s => if s = "alice" then some ⟨1, "alice", "hashed"⟩ else none)
        (fun _ _ => false) (fun _ _ => "tok") "alice" "pw2" :=
  login_uniform_401 (fun s => if s = "alice" then some ⟨1, "alice", "hashed"⟩ else none)
    (fun _ _ => false) (fun _ _ => "tok") "bob" "pw1" "alice" "pw2"
    ⟨1, "alice", "hashed"⟩ (by decide) (by decide) (by decide) (by decide)
    (by decide) (by decide) rfl

/-- C5 counterexample: inline-code stripping runs before fenced-block
removal, so the fenced region in `a```b```c` is not stripped — the
output `a``b``c` still contains backticks. -/
theorem cleanResponse_keeps_fence_residue :
    cleanResponse "a```b```c" = "a``b``c" ∧
    Char.ofNat 96 ∈ (cleanResponse "a```b```c").toList := by
  constructor <;> decide

/-- C5 amended: the pipeline strips heading, bold and inline-code
markup, with fenced-block removal applied only after inline stripping
(so intact fences rarely survive to it); the cited example cleans to
plain text with confidence 0.82. -/
theorem cleanResponse_example :
    cleanResponse "**Diagnosis**: flu `ICD-10` likely CONFIDENCE SCORE: 82%" =
      "Diagnosis: flu ICD-10 likely CONFIDENCE SCORE: 82%" ∧
    extractConfidence
        (cleanResponse "**Diagnosis**: flu `ICD-10` likely CONFIDENCE SCORE: 82%") =
      some ((82 : ℚ) / 100) := by
  have hclean : cleanResponse "**Diagnosis**: flu `ICD-10` likely CONFIDENCE SCORE: 82%" =
      "Diagnosis: flu ICD-10 likely CONFIDENCE SCORE: 82%" := by decide
  have hfind : findConf "Diagnosis: flu ICD-10 likely CONFIDENCE SCORE: 82%".toList =
      some 82 := by decide
  refine ⟨hclean, ?_⟩
  rw [hclean, extractConfidence, hfind]
  norm_num

/-- C6 counterexample: the terminator `[A-Z\s]+:` is compiled with the
`i` flag, so the lowercase line `the rationale notes:` after a blank line
terminates the summary capture — the claim's "next all-caps heading line
or end of text" predicts the capture running to the end instead. -/
theorem parseReasoning_lowercase_terminator :
    (parseReasoning "DECISION SUMMARY: use drug X\n\nthe rationale notes: none").summary =
      "use drug X" ∧
    (parseReasoning "DECISION SUMMARY: use drug X\n\nthe rationale notes: none").summary ≠
      "use drug X\n\nthe rationale notes: none" := by
  constructor <;> decide

/-- C6 amended: for each section the synonyms are tried in order and the
capture stops at the next blank-line-separated heading-like line (letters
of either case and whitespace followed by a colon — not only all-caps) or
at the end; a section none of whose synonyms occurs case-insensitively in
the text yields the fixed placeholder, and no section is ever the empty
string. -/
theorem extractSection_contract :
    (∀ (text : String) (hs : List String),
        (∀ h, h ∈ hs → ∀ i, matchCI h.toList (text.toList.drop i) = none) →
        extractSection text hs = "See full analysis above") ∧
    (∀ (text : String) (hs : List String), extractSection text hs ≠ "") ∧
    extractSection "SUMMARY: take aspirin\n\nnext steps are: rest"
      ["DECISION SUMMARY", "SUMMARY", "RECOMMENDATION"] = "take aspirin" :=
  ⟨fun text hs h => extractSection_no_heading text hs h,
   fun text hs => extractSection_ne_empty text hs,
   by decide⟩

/-- Witness for C6's amended theorem: no synonym occurs, so the
placeholder is returned. -/
theorem extractSection_contract_witness :
    extractSection "xyz" ["SUMMARY"] = "See full analysis above" := by
  apply extractSection_contract.1
  intro h hh i
  simp only [List.mem_singleton] at hh
  subst hh
  by_cases hi : i < 3
  · interval_cases i <;> decide
  · rw [List.drop_eq_nil_of_le (by simp; omega)]
    decide

/-- C10 counterexample: a `type` filter present with the empty-string
value does not constrain the result set to records whose `type` equals
the empty string — the `type` column is a closed enum, the validation
rejects the non-member value `""` and the query yields an error (a 500
at the route), not a result set. -/
theorem documents_empty_type_not_filter :
    findManyDocs [⟨"1", DocumentType.PROTOCOL, "", "", "", "", 5⟩]
        ⟨some "", none, none, none, none⟩ =
      Except.error "PrismaClientValidationError: invalid value for argument type" ∧
    (findManyDocs [⟨"1", DocumentType.PROTOCOL, "", "", "", "", 5⟩]
        ⟨some "", none, none, none, none⟩).isOk = false :=
  ⟨rfl, rfl⟩

/-- C10 amended: the five query parameters are passed through to the
store query as received and an absent parameter imposes no constraint;
a present `type` value outside the closed enum — the empty string
included — makes the query fail with a validation error instead of
returning rows, while in every successful query a document is listed iff
it is stored, its `type` names the value of a present `type` filter, and
each present string parameter (empty string included) equals the
corresponding field exactly. -/
theorem documents_filter_validated (db : List Doc) (w : DocWhere) :
    (∀ s, w.type = some s → parseDocType s = none →
      findManyDocs db w =
        Except.error "PrismaClientValidationError: invalid value for argument type") ∧
    (∀ docs, findManyDocs db w = Except.ok docs →
      ∀ d, d ∈ docs ↔
        d ∈ db ∧ (∀ s, w.type = some s → parseDocType s = some d.type) ∧
          (∀ s, w.country = some s → d.country = s) ∧
          (∀ s, w.region = some s → d.region = s) ∧
          (∀ s, w.disease = some s → d.disease = s) ∧
          (∀ s, w.documentType = some s → d.documentType = s)) := by
  constructor
  · intro s hs hp
    simp only [findManyDocs, hs, hp]
  · intro docs hdocs d
    cases ht : w.type with
    | none =>
      simp only [findManyDocs, ht] at hdocs
      simp only [Except.ok.injEq] at hdocs
      subst hdocs
      rw [List.Perm.mem_iff (List.perm_insertionSort _ _), List.mem_filter]
      simp only [strMatches, Bool.and_eq_true, optMatch_iff, ht]
      simp only [reduceCtorEq, false_implies, forall_const, true_and]
      tauto
    | some s0 =>
      cases hp : parseDocType s0 with
      | none =>
        simp only [findManyDocs, ht, hp] at hdocs
        exact absurd hdocs (by simp)
      | some t =>
        simp only [findManyDocs, ht, hp] at hdocs
        simp only [Except.ok.injEq] at hdocs
        subst hdocs
        rw [List.Perm.mem_iff (List.perm_insertionSort _ _), List.mem_filter]
        simp only [strMatches, Bool.and_eq_true, optMatch_iff, beq_iff_eq, ht,
          Option.some.injEq]
        constructor
        · rintro ⟨hdb, ⟨htype, hstr⟩⟩
          refine ⟨hdb, ?_, ?_⟩
          · intro s hs
            subst hs
            rw [hp, htype]
          · tauto
        · rintro ⟨hdb, htype, hstr⟩
          refine ⟨hdb, ⟨?_, ?_⟩⟩
          · have := htype s0 rfl
            rw [hp] at this
            exact (Option.some.inj this).symm
          · tauto

/-- Witness for C10's amended theorem: a non-member `type` value errors,
and a query with `type=PROTOCOL` and an empty-string `country` filter
lists the stored document whose country is the empty string. -/
theorem documents_filter_validated_witness :
    findManyDocs [⟨"1", DocumentType.PROTOCOL, "", "", "", "", 5⟩]
        ⟨some "STUDY", none, none, none, none⟩ =
      Except.error "PrismaClientValidationError: invalid value for argument type" ∧
    (⟨"1", DocumentType.PROTOCOL, "", "", "", "", 5⟩ : Doc) ∈
      [(⟨"1", DocumentType.PROTOCOL, "", "", "", "", 5⟩ : Doc)] := by
  constructor
  · exact (documents_filter_validated
      [⟨"1", DocumentType.PROTOCOL, "", "", "", "", 5⟩]
      ⟨some "STUDY", none, none, none, none⟩).1 "STUDY" rfl rfl
  · apply (((documents_filter_validated
        [⟨"1", DocumentType.PROTOCOL, "", "", "", "", 5⟩,
         ⟨"2", DocumentType.PROTOCOL, "US", "", "", "", 9⟩]
        ⟨some "PROTOCOL", some "", none, none, none⟩).2
      [⟨"1", DocumentType.PROTOCOL, "", "", "", "", 5⟩] rfl
      ⟨"1", DocumentType.PROTOCOL, "", "", "", "", 5⟩).mpr)
    refine ⟨by decide, ?_, ?_, ?_, ?_, ?_⟩ <;> intro s hs <;> cases hs <;> rfl

end Luminari
